import Mathlib

/-!
Verification of the task state manager (`TodoModel`) of a client-side todo
application.  The model keeps two ordered collections of tasks (active and
archived), a next-id counter, and a listener list; every mutating operation
updates the in-memory state, persists a snapshot and notifies the listeners.

The JavaScript class is embedded shallowly: each method becomes a pure
function from the model state to a new state paired with a `Bool` that is
`true` exactly when the method called `save()` followed by `notify()`
(in the source the two calls always appear together).  Timestamps
(`new Date().toISOString()`) are abstracted as a natural number `now`
supplied to the operations that read the clock.
-/

namespace Todo

/-- One todo item.  `completedAt` is optional: it is set only when the item
is moved to the archived (history) collection. -/
structure Task where
  id : Nat
  text : String
  completed : Bool
  createdAt : Nat
  completedAt : Option Nat
  deriving Repr, DecidableEq

/-- State of the manager: active todos, archived todos and the id counter.
The listener list is not part of the state; notification is recorded in the
`Bool` component of each operation's result. -/
structure TodoModel where
  todos : List Task
  completedTodos : List Task
  nextId : Nat
  deriving Repr, DecidableEq

/-- Fresh state: both collections empty, counter at 1 (the constructor's
defaults when nothing was persisted). -/
def TodoModel.init : TodoModel := ⟨[], [], 1⟩

/-- Characters stripped by the JavaScript `String.prototype.trim`: the
ECMAScript WhiteSpace production (TAB, VT, FF, SP, NBSP, ZWNBSP and the
Unicode space separators U+1680, U+2000..U+200A, U+202F, U+205F, U+3000)
together with the LineTerminator production (LF, CR, U+2028, U+2029). -/
def isJsWhitespace (c : Char) : Bool :=
  c == ' ' || c == '\t' || c == '\n' || c == '\r' || c == '\x0b' || c == '\x0c' ||
  c.toNat == 0xA0 || c.toNat == 0x1680 ||
  (0x2000 ≤ c.toNat && c.toNat ≤ 0x200A) ||
  c.toNat == 0x2028 || c.toNat == 0x2029 || c.toNat == 0x202F ||
  c.toNat == 0x205F || c.toNat == 0x3000 || c.toNat == 0xFEFF

/-- Model of the JavaScript `trim()` call: drop whitespace from both ends.
Defined structurally over the character list so that it evaluates inside
the kernel. -/
def jsTrim (s : String) : String :=
  String.mk (((s.data.dropWhile isJsWhitespace).reverse.dropWhile isJsWhitespace).reverse)

/-- Embedding of `addTodo(text)`: on whitespace-only text do nothing,
otherwise append a fresh task carrying id `nextId`, the trimmed text and a
creation timestamp, and bump the counter. -/
def addTodo (text : String) (now : Nat) (m : TodoModel) : TodoModel × Bool :=
  if jsTrim text = "" then (m, false)
  else
    ({ m with
        todos := m.todos ++
          [{ id := m.nextId, text := jsTrim text, completed := false,
             createdAt := now, completedAt := none }],
        nextId := m.nextId + 1 }, true)

/-- Flip the `completed` flag of the first task carrying `id` (the JS
`find` returns the first match and the flag is flipped in place). -/
def toggleFirst (id : Nat) : List Task → List Task
  | [] => []
  | t :: ts =>
    if t.id = id then { t with completed := !t.completed } :: ts
    else t :: toggleFirst id ts

/-- Replace the text of the first task carrying `id`. -/
def updateFirstText (id : Nat) (s : String) : List Task → List Task
  | [] => []
  | t :: ts =>
    if t.id = id then { t with text := s } :: ts
    else t :: updateFirstText id s ts

/-- Remove the first task carrying `id` (the JS `findIndex` followed by
`splice(index, 1)`). -/
def removeFirstId (id : Nat) : List Task → List Task
  | [] => []
  | t :: ts => if t.id = id then ts else t :: removeFirstId id ts

/-- Copy an archived task back to active shape: `{...t, completed: false}`
followed by `delete activeTodo.completedAt`. -/
def unarchive (t : Task) : Task :=
  { t with completed := false, completedAt := none }

/-- Embedding of `toggleComplete(id)`: flip the flag of the first matching
active todo; otherwise, if the id is found among the archived todos, move
that todo back to the active list with the flag cleared and the completion
timestamp removed; otherwise do nothing. -/
def toggleComplete (id : Nat) (m : TodoModel) : TodoModel × Bool :=
  if (m.todos.find? (fun t => t.id == id)).isSome then
    ({ m with todos := toggleFirst id m.todos }, true)
  else
    match m.completedTodos.find? (fun t => t.id == id) with
    | some c =>
        ({ m with
            todos := m.todos ++ [unarchive c],
            completedTodos := removeFirstId id m.completedTodos }, true)
    | none => (m, false)

/-- Embedding of `deleteTodo(id)`: filter the active list; only when that
removed nothing, filter the archived list; save and notify in every case. -/
def deleteTodo (id : Nat) (m : TodoModel) : TodoModel × Bool :=
  let todos' := m.todos.filter (fun t => t.id != id)
  if todos'.length = m.todos.length then
    ({ m with
        todos := todos',
        completedTodos := m.completedTodos.filter (fun t => t.id != id) }, true)
  else
    ({ m with todos := todos' }, true)

/-- Embedding of `updateTodo(id, newText)`: only when an active todo
carries `id` and the trimmed text is non-empty, replace that todo's text. -/
def updateTodo (id : Nat) (newText : String) (m : TodoModel) : TodoModel × Bool :=
  if (m.todos.find? (fun t => t.id == id)).isSome ∧ jsTrim newText ≠ "" then
    ({ m with todos := updateFirstText id (jsTrim newText) m.todos }, true)
  else (m, false)

/-- Stamp a completion timestamp on a task (`{...todo, completedAt: now}`). -/
def stamp (now : Nat) (t : Task) : Task :=
  { t with completedAt := some now }

/-- Embedding of `clearCompleted()` (spec name `archiveCompleted`): append a
stamped copy of every completed active todo to the archive, in order, then
drop the completed todos from the active list; save and notify always. -/
def clearCompleted (now : Nat) (m : TodoModel) : TodoModel × Bool :=
  ({ m with
      todos := m.todos.filter (fun t => !t.completed),
      completedTodos :=
        m.completedTodos ++ (m.todos.filter (fun t => t.completed)).map (stamp now) },
   true)

/-- Embedding of `clearAll()`: empty both collections. -/
def clearAll (m : TodoModel) : TodoModel × Bool :=
  ({ m with todos := [], completedTodos := [] }, true)

/-- Embedding of `clearCompletedHistory()` (spec name `clearArchived`):
empty the archived collection only. -/
def clearCompletedHistory (m : TodoModel) : TodoModel × Bool :=
  ({ m with completedTodos := [] }, true)

/-- Embedding of `revertTodo(id)`: if the id is found among the archived
todos, move that todo back to the active list with the flag cleared and the
completion timestamp removed; otherwise do nothing. -/
def revertTodo (id : Nat) (m : TodoModel) : TodoModel × Bool :=
  match m.completedTodos.find? (fun t => t.id == id) with
  | some c =>
      ({ m with
          todos := m.todos ++ [unarchive c],
          completedTodos := removeFirstId id m.completedTodos }, true)
  | none => (m, false)

/-- The mutating operations, under the spec's names, packaged as a syntax of
operation requests so that sequences of calls can be quantified over. -/
inductive Op where
  | addTask : String → Nat → Op
  | toggleCompletion : Nat → Op
  | deleteTask : Nat → Op
  | updateText : Nat → String → Op
  | archiveCompleted : Nat → Op
  | clearAllTasks : Op
  | clearArchived : Op
  | revertTask : Nat → Op
  deriving Repr, DecidableEq

/-- State reached by one operation (the notification flag is dropped). -/
def applyOp (m : TodoModel) : Op → TodoModel
  | .addTask text now => (addTodo text now m).1
  | .toggleCompletion id => (toggleComplete id m).1
  | .deleteTask id => (deleteTodo id m).1
  | .updateText id newText => (updateTodo id newText m).1
  | .archiveCompleted now => (clearCompleted now m).1
  | .clearAllTasks => (clearAll m).1
  | .clearArchived => (clearCompletedHistory m).1
  | .revertTask id => (revertTodo id m).1

/-- State reached by a sequence of operations. -/
def run (m : TodoModel) : List Op → TodoModel
  | [] => m
  | op :: ops => run (applyOp m op) ops

/-- Ids carried by a list of tasks, in order. -/
def idsOf (l : List Task) : List Nat := l.map Task.id

/-- The inductive invariant of the manager: the ids of the two collections
taken together are pairwise distinct, every id is below the counter, and
every archived task is completed and carries a completion timestamp. -/
def Inv (m : TodoModel) : Prop :=
  (idsOf m.todos ++ idsOf m.completedTodos).Nodup ∧
  (∀ t ∈ m.todos, t.id < m.nextId) ∧
  (∀ t ∈ m.completedTodos, t.id < m.nextId) ∧
  (∀ t ∈ m.completedTodos, t.completed = true ∧ t.completedAt.isSome)

theorem idsOf_append (l r : List Task) : idsOf (l ++ r) = idsOf l ++ idsOf r :=
  List.map_append Task.id l r

theorem idsOf_toggleFirst (id : Nat) (l : List Task) :
    idsOf (toggleFirst id l) = idsOf l := by
  induction l with
  | nil => rfl
  | cons t ts ih =>
    by_cases h : t.id = id <;> simp [toggleFirst, h, idsOf, idsOf] at ih ⊢ <;> exact ih

theorem idsOf_updateFirstText (id : Nat) (s : String) (l : List Task) :
    idsOf (updateFirstText id s l) = idsOf l := by
  induction l with
  | nil => rfl
  | cons t ts ih =>
    by_cases h : t.id = id <;> simp [updateFirstText, h, idsOf] at ih ⊢ <;> exact ih

theorem idsOf_map_stamp (now : Nat) (l : List Task) :
    idsOf (l.map (stamp now)) = idsOf l := by
  induction l with
  | nil => rfl
  | cons t ts ih => simpa [idsOf, stamp] using ih

theorem mem_removeFirstId {id : Nat} {l : List Task} {t : Task}
    (h : t ∈ removeFirstId id l) : t ∈ l := by
  induction l with
  | nil => simpa [removeFirstId] using h
  | cons u us ih =>
    by_cases hu : u.id = id
    · simp only [removeFirstId, if_pos hu] at h
      exact List.mem_cons_of_mem u h
    · simp only [removeFirstId, if_neg hu, List.mem_cons] at h
      rcases h with h | h
      · exact h ▸ List.mem_cons_self u us
      · exact List.mem_cons_of_mem u (ih h)

theorem perm_removeFirstId {id : Nat} {l : List Task} {c : Task}
    (h : l.find? (fun t => t.id == id) = some c) :
    List.Perm l (c :: removeFirstId id l) := by
  induction l with
  | nil => simp [List.find?] at h
  | cons u us ih =>
    by_cases hu : u.id = id
    · have : u = c := by
        rw [List.find?_cons_of_pos _ (by simp [hu])] at h
        exact Option.some.inj h
      subst this
      simp [removeFirstId, if_pos hu]
    · rw [List.find?_cons_of_neg _ (by simp [hu])] at h
      have h1 := (ih h).cons u
      have h2 : List.Perm (u :: c :: removeFirstId id us) (c :: u :: removeFirstId id us) :=
        List.Perm.swap c u (removeFirstId id us)
      simpa [removeFirstId, if_neg hu] using h1.trans h2

theorem mem_idsOf {l : List Task} {t : Task} (h : t ∈ l) : t.id ∈ idsOf l :=
  List.mem_map_of_mem Task.id h

theorem idsOf_mem_iff {l : List Task} {a : Nat} :
    a ∈ idsOf l ↔ ∃ t ∈ l, t.id = a := by
  simp [idsOf, List.mem_map]

theorem inv_addTodo (text : String) (now : Nat) (m : TodoModel) (h : Inv m) :
    Inv (addTodo text now m).1 := by
  by_cases he : jsTrim text = ""
  · simpa [addTodo, he] using h
  · obtain ⟨hnd, hlt1, hlt2, harch⟩ := h
    simp only [addTodo, if_neg he]
    refine ⟨?_, ?_, ?_, harch⟩
    · have hperm :
          List.Perm (m.nextId :: (idsOf m.todos ++ idsOf m.completedTodos))
            (idsOf m.todos ++ m.nextId :: idsOf m.completedTodos) :=
        List.perm_middle.symm
      have hmem : m.nextId ∉ idsOf m.todos ++ idsOf m.completedTodos := by
        intro hm
        rcases List.mem_append.mp hm with hm | hm
        · obtain ⟨u, hu, hui⟩ := idsOf_mem_iff.mp hm
          exact absurd (hui ▸ hlt1 u hu) (lt_irrefl _)
        · obtain ⟨u, hu, hui⟩ := idsOf_mem_iff.mp hm
          exact absurd (hui ▸ hlt2 u hu) (lt_irrefl _)
      have := hperm.nodup (List.nodup_cons.mpr ⟨hmem, hnd⟩)
      simpa [idsOf_append, idsOf] using this
    · intro t ht
      rcases List.mem_append.mp ht with ht | ht
      · exact Nat.lt_succ_of_lt (hlt1 t ht)
      · simp only [List.mem_singleton] at ht
        subst ht
        exact Nat.lt_succ_self _
    · exact fun t ht => Nat.lt_succ_of_lt (hlt2 t ht)

theorem inv_revert_aux {id : Nat} {m : TodoModel} {c : Task}
    (h : Inv m) (hc : m.completedTodos.find? (fun t => t.id == id) = some c) :
    Inv { m with
            todos := m.todos ++ [unarchive c],
            completedTodos := removeFirstId id m.completedTodos } := by
  obtain ⟨hnd, hlt1, hlt2, harch⟩ := h
  have hcm : c ∈ m.completedTodos := List.mem_of_find?_eq_some hc
  have hR : ∀ t ∈ removeFirstId id m.completedTodos, t ∈ m.completedTodos :=
    fun t ht => mem_removeFirstId ht
  refine ⟨?_, ?_, ?_, fun t ht => harch t (hR t ht)⟩
  · have hperm :
        List.Perm (idsOf m.completedTodos)
          (c.id :: idsOf (removeFirstId id m.completedTodos)) := by
      simpa [idsOf] using (perm_removeFirstId hc).map Task.id
    have hall :
        List.Perm (idsOf m.todos ++ idsOf m.completedTodos)
          (idsOf m.todos ++ c.id :: idsOf (removeFirstId id m.completedTodos)) :=
      List.Perm.append_left _ hperm
    have := hall.nodup hnd
    have h2 :
        List.Perm (idsOf m.todos ++ c.id :: idsOf (removeFirstId id m.completedTodos))
          ((idsOf m.todos ++ [c.id]) ++ idsOf (removeFirstId id m.completedTodos)) := by
      rw [List.append_assoc, List.singleton_append]
    have := h2.nodup this
    simpa [idsOf_append, idsOf, unarchive] using this
  · intro t ht
    rcases List.mem_append.mp ht with ht | ht
    · exact hlt1 t ht
    · simp only [List.mem_singleton] at ht
      subst ht
      exact hlt2 c hcm
  · exact fun t ht => hlt2 t (hR t ht)

theorem inv_toggleComplete (id : Nat) (m : TodoModel) (h : Inv m) :
    Inv (toggleComplete id m).1 := by
  by_cases hf : (m.todos.find? (fun t => t.id == id)).isSome
  · obtain ⟨hnd, hlt1, hlt2, harch⟩ := h
    simp only [toggleComplete, if_pos hf]
    refine ⟨?_, ?_, hlt2, harch⟩
    · simpa [idsOf_toggleFirst] using hnd
    · intro t ht
      have : t.id ∈ idsOf (toggleFirst id m.todos) := mem_idsOf ht
      rw [idsOf_toggleFirst] at this
      obtain ⟨u, hu, hui⟩ := idsOf_mem_iff.mp this
      exact hui ▸ hlt1 u hu
  · simp only [toggleComplete, if_neg hf]
    cases hc : m.completedTodos.find? (fun t => t.id == id) with
    | none => exact h
    | some c => exact inv_revert_aux h hc

theorem inv_revertTodo (id : Nat) (m : TodoModel) (h : Inv m) :
    Inv (revertTodo id m).1 := by
  unfold revertTodo
  cases hc : m.completedTodos.find? (fun t => t.id == id) with
  | none => exact h
  | some c => exact inv_revert_aux h hc

theorem inv_deleteTodo (id : Nat) (m : TodoModel) (h : Inv m) :
    Inv (deleteTodo id m).1 := by
  obtain ⟨hnd, hlt1, hlt2, harch⟩ := h
  have hsub1 :
      List.Sublist (idsOf (m.todos.filter (fun t => t.id != id))) (idsOf m.todos) :=
    (List.filter_sublist m.todos).map Task.id
  have hsub2 :
      List.Sublist (idsOf (m.completedTodos.filter (fun t => t.id != id)))
        (idsOf m.completedTodos) :=
    (List.filter_sublist m.completedTodos).map Task.id
  unfold deleteTodo
  by_cases hl :
      (m.todos.filter (fun t => t.id != id)).length = m.todos.length
  · simp only [if_pos hl]
    refine ⟨?_, ?_, ?_, ?_⟩
    · exact hnd.sublist (hsub1.append hsub2)
    · exact fun t ht => hlt1 t (List.mem_of_mem_filter ht)
    · exact fun t ht => hlt2 t (List.mem_of_mem_filter ht)
    · exact fun t ht => harch t (List.mem_of_mem_filter ht)
  · simp only [if_neg hl]
    refine ⟨?_, ?_, hlt2, harch⟩
    · exact hnd.sublist (hsub1.append (List.Sublist.refl _))
    · exact fun t ht => hlt1 t (List.mem_of_mem_filter ht)

theorem inv_updateTodo (id : Nat) (newText : String) (m : TodoModel) (h : Inv m) :
    Inv (updateTodo id newText m).1 := by
  by_cases hcond :
      (m.todos.find? (fun t => t.id == id)).isSome ∧ jsTrim newText ≠ ""
  · obtain ⟨hnd, hlt1, hlt2, harch⟩ := h
    simp only [updateTodo, if_pos hcond]
    refine ⟨?_, ?_, hlt2, harch⟩
    · simpa [idsOf_updateFirstText] using hnd
    · intro t ht
      have : t.id ∈ idsOf (updateFirstText id (jsTrim newText) m.todos) := mem_idsOf ht
      rw [idsOf_updateFirstText] at this
      obtain ⟨u, hu, hui⟩ := idsOf_mem_iff.mp this
      exact hui ▸ hlt1 u hu
  · unfold updateTodo
    rw [if_neg hcond]
    exact h

theorem inv_clearCompleted (now : Nat) (m : TodoModel) (h : Inv m) :
    Inv (clearCompleted now m).1 := by
  obtain ⟨hnd, hlt1, hlt2, harch⟩ := h
  have hT :
      List.Perm
        (idsOf (m.todos.filter (fun t => t.completed)) ++
          idsOf (m.todos.filter (fun t => !t.completed)))
        (idsOf m.todos) := by
    have := (List.filter_append_perm (fun t => t.completed) m.todos).map Task.id
    simpa [idsOf, List.map_append] using this
  refine ⟨?_, ?_, ?_, ?_⟩
  · have step1 :
        List.Perm (idsOf m.todos ++ idsOf m.completedTodos)
          ((idsOf (m.todos.filter (fun t => t.completed)) ++
              idsOf (m.todos.filter (fun t => !t.completed))) ++
            idsOf m.completedTodos) :=
      hT.symm.append_right _
    have step2 :
        List.Perm
          ((idsOf (m.todos.filter (fun t => t.completed)) ++
              idsOf (m.todos.filter (fun t => !t.completed))) ++
            idsOf m.completedTodos)
          (idsOf (m.todos.filter (fun t => !t.completed)) ++
            (idsOf m.completedTodos ++
              idsOf (m.todos.filter (fun t => t.completed)))) := by
      have ha :
          List.Perm
            ((idsOf (m.todos.filter (fun t => t.completed)) ++
                idsOf (m.todos.filter (fun t => !t.completed))) ++
              idsOf m.completedTodos)
            (idsOf m.completedTodos ++
              (idsOf (m.todos.filter (fun t => t.completed)) ++
                idsOf (m.todos.filter (fun t => !t.completed)))) :=
        List.perm_append_comm
      have hb :
          List.Perm
            (idsOf (m.todos.filter (fun t => t.completed)) ++
              idsOf (m.todos.filter (fun t => !t.completed)))
            (idsOf (m.todos.filter (fun t => !t.completed)) ++
              idsOf (m.todos.filter (fun t => t.completed))) :=
        List.perm_append_comm
      have hc := (List.Perm.append_left (idsOf m.completedTodos) hb).trans
        (List.perm_append_comm)
      have hd := ha.trans hc
      have he :
          List.Perm
            ((idsOf (m.todos.filter (fun t => !t.completed)) ++
                idsOf (m.todos.filter (fun t => t.completed))) ++
              idsOf m.completedTodos)
            (idsOf (m.todos.filter (fun t => !t.completed)) ++
              (idsOf m.completedTodos ++
                idsOf (m.todos.filter (fun t => t.completed)))) := by
        rw [List.append_assoc]
        exact List.Perm.append_left _ List.perm_append_comm
      exact hd.trans he
    have := (step1.trans step2).nodup hnd
    simpa [clearCompleted, idsOf_append, idsOf_map_stamp] using this
  · intro t ht
    simp only [clearCompleted] at ht
    exact hlt1 t (List.mem_of_mem_filter ht)
  · intro t ht
    simp only [clearCompleted] at ht
    rcases List.mem_append.mp ht with ht | ht
    · exact hlt2 t ht
    · obtain ⟨u, hu, hut⟩ := List.mem_map.mp ht
      have := hlt1 u (List.mem_of_mem_filter hu)
      simpa [← hut, stamp] using this
  · intro t ht
    simp only [clearCompleted] at ht
    rcases List.mem_append.mp ht with ht | ht
    · exact harch t ht
    · obtain ⟨u, hu, hut⟩ := List.mem_map.mp ht
      have hcu : u.completed = true := (List.mem_filter.mp hu).2
      subst hut
      simp [stamp, hcu]

theorem inv_clearAll (m : TodoModel) (h : Inv m) : Inv (clearAll m).1 := by
  refine ⟨?_, ?_, ?_, ?_⟩ <;> simp [clearAll, idsOf]

theorem inv_clearCompletedHistory (m : TodoModel) (h : Inv m) :
    Inv (clearCompletedHistory m).1 := by
  obtain ⟨hnd, hlt1, hlt2, harch⟩ := h
  refine ⟨?_, ?_, ?_, ?_⟩
  · simp only [clearCompletedHistory, idsOf]
    simpa using (List.nodup_append.mp hnd).1
  · exact fun t ht => hlt1 t ht
  · simp [clearCompletedHistory]
  · simp [clearCompletedHistory]

theorem inv_applyOp (m : TodoModel) (op : Op) (h : Inv m) : Inv (applyOp m op) := by
  cases op with
  | addTask text now => exact inv_addTodo text now m h
  | toggleCompletion id => exact inv_toggleComplete id m h
  | deleteTask id => exact inv_deleteTodo id m h
  | updateText id newText => exact inv_updateTodo id newText m h
  | archiveCompleted now => exact inv_clearCompleted now m h
  | clearAllTasks => exact inv_clearAll m h
  | clearArchived => exact inv_clearCompletedHistory m h
  | revertTask id => exact inv_revertTodo id m h

theorem inv_run (ops : List Op) (m : TodoModel) (h : Inv m) : Inv (run m ops) := by
  induction ops generalizing m with
  | nil => exact h
  | cons op ops ih => exact ih (applyOp m op) (inv_applyOp m op h)

theorem inv_init : Inv TodoModel.init := by
  refine ⟨?_, ?_, ?_, ?_⟩ <;> simp [TodoModel.init, idsOf]

theorem nextId_toggleComplete (id : Nat) (m : TodoModel) :
    (toggleComplete id m).1.nextId = m.nextId := by
  by_cases hf : (m.todos.find? (fun t => t.id == id)).isSome
  · simp [toggleComplete, hf]
  · simp only [toggleComplete, if_neg hf]
    cases m.completedTodos.find? (fun t => t.id == id) <;> rfl

theorem nextId_deleteTodo (id : Nat) (m : TodoModel) :
    (deleteTodo id m).1.nextId = m.nextId := by
  unfold deleteTodo
  by_cases hl : (m.todos.filter (fun t => t.id != id)).length = m.todos.length
  · rw [if_pos hl]
  · rw [if_neg hl]

theorem nextId_updateTodo (id : Nat) (s : String) (m : TodoModel) :
    (updateTodo id s m).1.nextId = m.nextId := by
  unfold updateTodo
  by_cases hcond : (m.todos.find? (fun t => t.id == id)).isSome ∧ jsTrim s ≠ ""
  · rw [if_pos hcond]
  · rw [if_neg hcond]

theorem nextId_revertTodo (id : Nat) (m : TodoModel) :
    (revertTodo id m).1.nextId = m.nextId := by
  unfold revertTodo
  cases m.completedTodos.find? (fun t => t.id == id) <;> rfl

theorem nextId_addTodo (s : String) (now : Nat) (m : TodoModel) :
    (addTodo s now m).1.nextId =
      (if jsTrim s = "" then m.nextId else m.nextId + 1) := by
  unfold addTodo
  by_cases he : jsTrim s = ""
  · rw [if_pos he, if_pos he]
  · rw [if_neg he, if_neg he]

theorem nextId_mono_applyOp (m : TodoModel) (op : Op) :
    m.nextId ≤ (applyOp m op).nextId := by
  cases op with
  | addTask text now =>
    have := nextId_addTodo text now m
    simp only [applyOp, this]
    by_cases he : jsTrim text = "" <;> simp [he]
  | toggleCompletion id => simp [applyOp, nextId_toggleComplete]
  | deleteTask id => simp [applyOp, nextId_deleteTodo]
  | updateText id newText => simp [applyOp, nextId_updateTodo]
  | archiveCompleted now => simp [applyOp, clearCompleted]
  | clearAllTasks => simp [applyOp, clearAll]
  | clearArchived => simp [applyOp, clearCompletedHistory]
  | revertTask id => simp [applyOp, nextId_revertTodo]

theorem nextId_mono_run (ops : List Op) (m : TodoModel) :
    m.nextId ≤ (run m ops).nextId := by
  induction ops generalizing m with
  | nil => exact Nat.le_refl _
  | cons op ops ih =>
    exact Nat.le_trans (nextId_mono_applyOp m op) (ih (applyOp m op))

/-- C1: starting from the initial manager state, after every finite sequence
of mutation operations no task id appears in both the active and the
archived collection, every id occurring in either collection is strictly
less than `nextId`, and every archived task is completed and carries a
completion timestamp. -/
theorem C1_state_invariants (ops : List Op) :
    (∀ t ∈ (run TodoModel.init ops).todos,
        ∀ u ∈ (run TodoModel.init ops).completedTodos, t.id ≠ u.id) ∧
    (∀ t ∈ (run TodoModel.init ops).todos,
        t.id < (run TodoModel.init ops).nextId) ∧
    (∀ t ∈ (run TodoModel.init ops).completedTodos,
        t.id < (run TodoModel.init ops).nextId) ∧
    (∀ t ∈ (run TodoModel.init ops).completedTodos,
        t.completed = true ∧ t.completedAt.isSome) := by
  obtain ⟨hnd, hlt1, hlt2, harch⟩ := inv_run ops TodoModel.init inv_init
  refine ⟨?_, hlt1, hlt2, harch⟩
  intro t ht u hu hid
  have hdis := (List.nodup_append.mp hnd).2.2
  exact hdis (mem_idsOf ht) (by rw [hid]; exact mem_idsOf hu)

/-- C2: for every input whose trimmed form is non-empty, `addTask` appends
exactly one task at the end of the active collection, carrying the prior
`nextId` as id, the trimmed text, `completed = false` and a creation
timestamp; `nextId` is incremented, the archived collection is untouched,
and the listeners are notified. -/
theorem C2_addTask_appends (text : String) (now : Nat) (m : TodoModel)
    (h : jsTrim text ≠ "") :
    (addTodo text now m).1.todos =
        m.todos ++ [{ id := m.nextId, text := jsTrim text, completed := false,
                      createdAt := now, completedAt := none }] ∧
    (addTodo text now m).1.nextId = m.nextId + 1 ∧
    (addTodo text now m).1.completedTodos = m.completedTodos ∧
    (addTodo text now m).2 = true := by
  refine ⟨?_, ?_, ?_, ?_⟩ <;> simp [addTodo, h]

theorem C2_addTask_appends_witness :
    (addTodo "Buy milk" 5 TodoModel.init).1.todos =
        TodoModel.init.todos ++
          [{ id := TodoModel.init.nextId, text := jsTrim "Buy milk",
             completed := false, createdAt := 5, completedAt := none }] ∧
    (addTodo "Buy milk" 5 TodoModel.init).1.nextId = TodoModel.init.nextId + 1 ∧
    (addTodo "Buy milk" 5 TodoModel.init).1.completedTodos =
        TodoModel.init.completedTodos ∧
    (addTodo "Buy milk" 5 TodoModel.init).2 = true :=
  C2_addTask_appends "Buy milk" 5 TodoModel.init (by decide)

/-- C3: `archiveCompleted` moves exactly the completed active tasks into the
archive: each is appended, in its original relative order, with a completion
timestamp added, while the not-completed tasks remain active in order; the
counter is unchanged and the listeners are notified. -/
theorem C3_archiveCompleted_moves (now : Nat) (m : TodoModel) :
    (clearCompleted now m).1.todos = m.todos.filter (fun t => !t.completed) ∧
    (clearCompleted now m).1.completedTodos =
      m.completedTodos ++
        (m.todos.filter (fun t => t.completed)).map
          (fun t => { t with completedAt := some now }) ∧
    (clearCompleted now m).1.nextId = m.nextId ∧
    (clearCompleted now m).2 = true :=
  ⟨rfl, rfl, rfl, rfl⟩

/-- C8: for every input whose trimmed form is empty, `addTask` is a complete
no-op: the state is unchanged and no listener is notified. -/
theorem C8_addTask_empty_noop (text : String) (now : Nat) (m : TodoModel)
    (h : jsTrim text = "") :
    addTodo text now m = (m, false) := by
  simp [addTodo, h]

theorem C8_addTask_empty_noop_witness :
    addTodo "   " 3 TodoModel.init = (TodoModel.init, false) :=
  C8_addTask_empty_noop "   " 3 TodoModel.init (by decide)

/-- C9: every mutation other than `addTask` leaves `nextId` unchanged,
`addTask` on valid text increments it by exactly 1 (and on invalid text
leaves it unchanged), and `nextId` never decreases over any sequence of
operations, so an id once issued is never issued again. -/
theorem C9_nextId_frame (m : TodoModel) (id : Nat) (s : String) (now : Nat)
    (ops : List Op) :
    (toggleComplete id m).1.nextId = m.nextId ∧
    (deleteTodo id m).1.nextId = m.nextId ∧
    (updateTodo id s m).1.nextId = m.nextId ∧
    (clearCompleted now m).1.nextId = m.nextId ∧
    (clearAll m).1.nextId = m.nextId ∧
    (clearCompletedHistory m).1.nextId = m.nextId ∧
    (revertTodo id m).1.nextId = m.nextId ∧
    (addTodo s now m).1.nextId =
      (if jsTrim s = "" then m.nextId else m.nextId + 1) ∧
    m.nextId ≤ (run m ops).nextId :=
  ⟨nextId_toggleComplete id m, nextId_deleteTodo id m, nextId_updateTodo id s m,
   rfl, rfl, rfl, nextId_revertTodo id m, nextId_addTodo s now m,
   nextId_mono_run ops m⟩

/-- C10: `archiveCompleted` on a state with no completed active task leaves
the state unchanged but still persists and notifies every listener — it is
not a silent no-op. -/
theorem C10_archive_notifies_without_work (now : Nat) (m : TodoModel)
    (h : ∀ t ∈ m.todos, t.completed = false) :
    clearCompleted now m = (m, true) := by
  unfold clearCompleted
  have h1 : m.todos.filter (fun t => !t.completed) = m.todos :=
    List.filter_eq_self.mpr (fun t ht => by simp [h t ht])
  have h2 : m.todos.filter (fun t => t.completed) = [] :=
    List.filter_eq_nil_iff.mpr (fun t ht => by simp [h t ht])
  simp [h1, h2]

/-- C5: `deleteTask` filters the matching id out of the active collection;
only when no active task matched does it filter the archived collection
(first match wins, active searched first); and it persists and notifies in
every case, a matching task found or not. -/
theorem C5_deleteTask_first_match (id : Nat) (m : TodoModel) :
    deleteTodo id m =
      ({ m with
          todos := m.todos.filter (fun t => t.id != id),
          completedTodos :=
            if m.todos.any (fun t => t.id == id) then m.completedTodos
            else m.completedTodos.filter (fun t => t.id != id) }, true) := by
  simp only [deleteTodo]
  by_cases hl : (m.todos.filter (fun t => t.id != id)).length = m.todos.length
  · rw [if_pos hl]
    have hall := List.filter_length_eq_length.mp hl
    have hany : m.todos.any (fun t => t.id == id) = false := by
      by_contra hc
      rw [Bool.not_eq_false] at hc
      obtain ⟨t, ht, hb⟩ := List.any_eq_true.mp hc
      have := hall t ht
      simp only [bne_iff_ne, ne_eq] at this
      exact this (by simpa using hb)
    rw [if_neg (by simp [hany])]
  · rw [if_neg hl]
    have hany : m.todos.any (fun t => t.id == id) = true := by
      by_contra hc
      have hall : ∀ t ∈ m.todos, (t.id != id) = true := by
        intro t ht
        by_contra hb
        apply hc
        apply List.any_eq_true.mpr
        refine ⟨t, ht, ?_⟩
        simpa using hb
      exact hl (List.filter_length_eq_length.mpr hall)
    rw [if_pos (by simp [hany])]

/-- C4: when no active task carries the id, `toggleCompletion` and
`revertTask` produce identical results (state and notification alike); and
when the id is absent from the archived collection as well, both are
silent no-ops. -/
theorem C4_toggle_revert_agree (id : Nat) (m : TodoModel)
    (h : ∀ t ∈ m.todos, t.id ≠ id) :
    toggleComplete id m = revertTodo id m ∧
    (m.completedTodos.any (fun t => t.id == id) = true ∨
      revertTodo id m = (m, false)) := by
  have hf : m.todos.find? (fun t => t.id == id) = none :=
    List.find?_eq_none.mpr (fun t ht => by simp [h t ht])
  constructor
  · unfold toggleComplete revertTodo
    rw [hf]
    rfl
  · by_cases ha : m.completedTodos.any (fun t => t.id == id) = true
    · exact Or.inl ha
    · refine Or.inr ?_
      have hcn : m.completedTodos.find? (fun t => t.id == id) = none := by
        rw [List.find?_eq_none]
        intro t ht hb
        exact ha (List.any_eq_true.mpr ⟨t, ht, hb⟩)
      unfold revertTodo
      rw [hcn]

theorem C4_toggle_revert_agree_witness :
    toggleComplete 1 (TodoModel.mk [] [Task.mk 1 "A" true 0 (some 4)] 2) =
        revertTodo 1 (TodoModel.mk [] [Task.mk 1 "A" true 0 (some 4)] 2) ∧
    ((TodoModel.mk [] [Task.mk 1 "A" true 0 (some 4)] 2).completedTodos.any
          (fun t => t.id == 1) = true ∨
      revertTodo 1 (TodoModel.mk [] [Task.mk 1 "A" true 0 (some 4)] 2) =
        (TodoModel.mk [] [Task.mk 1 "A" true 0 (some 4)] 2, false)) :=
  C4_toggle_revert_agree 1 (TodoModel.mk [] [Task.mk 1 "A" true 0 (some 4)] 2)
    (by decide)

theorem completedTodos_updateTodo (id : Nat) (s : String) (m : TodoModel) :
    (updateTodo id s m).1.completedTodos = m.completedTodos := by
  unfold updateTodo
  by_cases hcond : (m.todos.find? (fun t => t.id == id)).isSome ∧ jsTrim s ≠ ""
  · rw [if_pos hcond]
  · rw [if_neg hcond]

theorem updateFirstText_getElem (id : Nat) (s : String) (l : List Task)
    (n : Nat) :
    (updateFirstText id s l)[n]? =
      (if n = l.findIdx (fun t => t.id == id) then
          (l[n]?).map (fun t => { t with text := s })
        else l[n]?) := by
  induction l generalizing n with
  | nil => simp [updateFirstText]
  | cons t ts ih =>
    rw [List.findIdx_cons]
    by_cases hid : t.id = id
    · simp only [hid, beq_self_eq_true, cond_true]
      cases n with
      | zero => simp [updateFirstText, hid]
      | succ n => simp [updateFirstText, hid]
    · have hb : (t.id == id) = false := by simp [hid]
      simp only [hb, cond_false]
      cases n with
      | zero => simp [updateFirstText, hid]
      | succ n =>
        have := ih n
        simp only [updateFirstText, if_neg hid, List.getElem?_cons_succ,
          Nat.succ_eq_add_one, Nat.add_right_cancel_iff] at this ⊢
        exact this

/-- C7: `updateText` never touches the archived collection or the counter;
it mutates the state and notifies exactly when an active task carries the
id and the trimmed text is non-empty, replacing the text of the first such
task (all positions other than the first match are untouched); in every
other case it returns the state unchanged with no notification. -/
theorem C7_updateText_only_active (id : Nat) (newText : String)
    (m : TodoModel) :
    (updateTodo id newText m).1.completedTodos = m.completedTodos ∧
    (updateTodo id newText m).1.nextId = m.nextId ∧
    updateTodo id newText m =
      (if m.todos.any (fun t => t.id == id) && !(jsTrim newText == "") then
          ({ m with todos := updateFirstText id (jsTrim newText) m.todos },
            true)
        else (m, false)) ∧
    ∀ n : Nat,
      (updateFirstText id (jsTrim newText) m.todos)[n]? =
        (if n = m.todos.findIdx (fun t => t.id == id) then
            (m.todos[n]?).map (fun t => { t with text := jsTrim newText })
          else m.todos[n]?) := by
  refine ⟨completedTodos_updateTodo id newText m, nextId_updateTodo id newText m,
    ?_, fun n => updateFirstText_getElem id (jsTrim newText) m.todos n⟩
  by_cases h1 : (m.todos.find? (fun t => t.id == id)).isSome = true
  · by_cases h2 : jsTrim newText = ""
    · unfold updateTodo
      rw [if_neg (by simp [h2]), if_neg (by simp [h2])]
    · have hany : m.todos.any (fun t => t.id == id) = true := by
        obtain ⟨t, ht, hb⟩ := List.find?_isSome.mp h1
        exact List.any_eq_true.mpr ⟨t, ht, hb⟩
      unfold updateTodo
      rw [if_pos ⟨h1, h2⟩, if_pos (by simp [hany, h2])]
  · have hany : m.todos.any (fun t => t.id == id) = false := by
      by_contra hc
      rw [Bool.not_eq_false] at hc
      obtain ⟨t, ht, hb⟩ := List.any_eq_true.mp hc
      exact h1 (List.find?_isSome.mpr ⟨t, ht, hb⟩)
    unfold updateTodo
    rw [if_neg (by simp [h1]), if_neg (by simp [hany])]

theorem removeFirstId_append_of_not_mem (id : Nat) (C L : List Task)
    (h : id ∉ idsOf C) :
    removeFirstId id (C ++ L) = C ++ removeFirstId id L := by
  induction C with
  | nil => rfl
  | cons c cs ih =>
    have hc : c.id ≠ id := by
      intro he
      exact h (by rw [← he]; exact mem_idsOf (List.mem_cons_self c cs))
    have h2 : id ∉ idsOf cs := fun hm => h (by simp [idsOf] at hm ⊢; exact .inr hm)
    simp [removeFirstId, hc, ih h2]

theorem find?_append_cons_self (id : Nat) (C L : List Task) (s : Task)
    (hs : s.id = id) (h : id ∉ idsOf C) :
    (C ++ s :: L).find? (fun t => t.id == id) = some s := by
  rw [List.find?_append]
  have hC : C.find? (fun t => t.id == id) = none := by
    rw [List.find?_eq_none]
    intro t ht hb
    exact h (by rw [← beq_iff_eq.mp hb]; exact mem_idsOf ht)
  rw [hC, List.find?_cons_of_pos _ (by simp [hs])]
  rfl

theorem run_revert_sequence (S : List Task) (C todos : List Task) (n : Nat) :
    (∀ s ∈ S, s.id ∉ idsOf C) →
    run ⟨todos, C ++ S, n⟩ ((idsOf S).map Op.revertTask) =
      ⟨todos ++ S.map unarchive, C, n⟩ := by
  induction S generalizing todos with
  | nil => intro _; simp [run, idsOf]
  | cons s S ih =>
    intro h
    have hs : s.id ∉ idsOf C := h s (List.mem_cons_self s S)
    have hstep :
        applyOp ⟨todos, C ++ s :: S, n⟩ (Op.revertTask s.id) =
          ⟨todos ++ [unarchive s], C ++ S, n⟩ := by
      simp only [applyOp, revertTodo]
      rw [find?_append_cons_self s.id C S s rfl hs]
      have hrem : removeFirstId s.id (C ++ s :: S) = C ++ S := by
        rw [removeFirstId_append_of_not_mem s.id C (s :: S) hs]
        simp [removeFirstId]
      simp [hrem]
    have hrest := ih (todos ++ [unarchive s])
      (fun u hu => h u (List.mem_cons_of_mem s hu))
    simp only [idsOf, List.map_cons, run, hstep]
    rw [show (idsOf S).map Op.revertTask = (S.map Task.id).map Op.revertTask
          from rfl] at hrest
    rw [hrest, List.append_assoc, List.singleton_append]

/-- C6: archiving the completed tasks and then reverting each freshly
archived id, in order, restores the original active-set membership: the
not-completed tasks keep their places and every previously completed task
reappears, id and text intact, with `completed = false` and no
`completedAt`; the archived collection returns to exactly its prior
contents. -/
theorem C6_archive_revert_roundtrip (now : Nat) (m : TodoModel)
    (hinv : Inv m) :
    run m (Op.archiveCompleted now ::
        (idsOf (m.todos.filter (fun t => t.completed))).map Op.revertTask) =
      { m with
          todos := m.todos.filter (fun t => !t.completed) ++
            (m.todos.filter (fun t => t.completed)).map
              (fun t => { t with completed := false, completedAt := none }) } := by
  obtain ⟨hnd, _, _, _⟩ := hinv
  have hdis := (List.nodup_append.mp hnd).2.2
  have hids : idsOf ((m.todos.filter (fun t => t.completed)).map (stamp now)) =
      idsOf (m.todos.filter (fun t => t.completed)) := idsOf_map_stamp now _
  have hdisj : ∀ s ∈ (m.todos.filter (fun t => t.completed)).map (stamp now),
      s.id ∉ idsOf m.completedTodos := by
    intro s hs hmem
    obtain ⟨u, hu, hus⟩ := List.mem_map.mp hs
    have hut : u ∈ m.todos := List.mem_of_mem_filter hu
    have hsu : s.id = u.id := by rw [← hus]; rfl
    exact hdis (by rw [hsu]; exact mem_idsOf hut) hmem
  have hmain := run_revert_sequence
    ((m.todos.filter (fun t => t.completed)).map (stamp now))
    m.completedTodos (m.todos.filter (fun t => !t.completed)) m.nextId hdisj
  rw [hids] at hmain
  have hstep : applyOp m (Op.archiveCompleted now) =
      ⟨m.todos.filter (fun t => !t.completed),
       m.completedTodos ++
         (m.todos.filter (fun t => t.completed)).map (stamp now),
       m.nextId⟩ := rfl
  rw [run, hstep, hmain, List.map_map]
  rfl

theorem C6_archive_revert_roundtrip_witness :
    run (TodoModel.mk [Task.mk 1 "A" true 0 none, Task.mk 2 "B" false 0 none] [] 3)
        [Op.archiveCompleted 9, Op.revertTask 1] =
      TodoModel.mk [Task.mk 2 "B" false 0 none, Task.mk 1 "A" false 0 none] [] 3 :=
  C6_archive_revert_roundtrip 9
    (TodoModel.mk [Task.mk 1 "A" true 0 none, Task.mk 2 "B" false 0 none] [] 3)
    (by refine ⟨?_, ?_, ?_, ?_⟩ <;> decide)

theorem C10_archive_notifies_without_work_witness :
    clearCompleted 9
        ⟨[⟨1, "A", false, 0, none⟩], [⟨2, "B", true, 0, some 3⟩], 3⟩ =
      (⟨[⟨1, "A", false, 0, none⟩], [⟨2, "B", true, 0, some 3⟩], 3⟩, true) :=
  C10_archive_notifies_without_work 9
    ⟨[⟨1, "A", false, 0, none⟩], [⟨2, "B", true, 0, some 3⟩], 3⟩ (by decide)

theorem addTodo_scenarioA :
    (addTodo "  Buy milk " 7 TodoModel.init).1.todos =
      [{ id := 1, text := "Buy milk", completed := false, createdAt := 7,
         completedAt := none }] := by decide

theorem run_scenarioB :
    run TodoModel.init
        [Op.addTask "A" 0, Op.addTask "B" 1, Op.toggleCompletion 1,
         Op.archiveCompleted 2] =
      ⟨[⟨2, "B", false, 1, none⟩], [⟨1, "A", true, 0, some 2⟩], 3⟩ := by decide

end Todo
